import Mathlib

/-!
# A shallow embedding of `shell.c`

The interactive shell of the repository is one C file.  This development
translates its functions into Lean and settles properties of the job ledger
(`add_command`), the dispatcher (`handle_command`), the `cd` builtin
(`execute_cd`), the listings (`execute_jobs`, `execute_history`), the child
continuation (`child_command_executor`, `remove_char`) and one iteration of
`shell_loop`.

Conventions of the embedding.

* A C string is the list of its characters before the terminating NUL
  (`CString`).  A `char **words` array is the list of its entries before the
  first NULL entry.
* Operating-system calls are oracles collected in `Sys`; the value returned by
  `fork` is a parameter of the functions that call it.
* The process state the functions read and write is `World`.
* A function that can end the process returns an `Outcome`.
-/

namespace Shell

/-! ## Constants (lines 9-29 of `shell.c`) -/

/-- A C string: its characters up to, not including, the terminating NUL. -/
abbrev CString := List Char

/-- The macro `PROMPT`. -/
def PROMPT : String := ">"

/-- The macro `MAX_WORD_LEN`. -/
def MAX_WORD_LEN : Nat := 100

/-- The macro `MAX_WORDS_NUM`. -/
def MAX_WORDS_NUM : Nat := 100

/-- The macro `MAX_COMMANDS_NUM`. -/
def MAX_COMMANDS_NUM : Nat := 100

/-- The macro `MAX_LINE_BUFF_SIZE`, `(MAX_WORDS_NUM * (MAX_WORD_LEN + 1)) + 1`. -/
def MAX_LINE_BUFF_SIZE : Nat := MAX_WORDS_NUM * (MAX_WORD_LEN + 1) + 1

/-- The number of values of `size_t` (64-bit). -/
def SIZE_MODULUS : Nat := 18446744073709551616

/-- The macro `WHITE_SPACE`. -/
def WHITE_SPACE : CString := [' ']

/-- The macro `AMPERSAND_CHAR`. -/
def AMPERSAND_CHAR : CString := ['&']

/-- The macro `CD_COMMAND`. -/
def CD_COMMAND : CString := ['c', 'd']

/-- The macro `CD_HOME_CHAR`. -/
def CD_HOME_CHAR : CString := ['~']

/-- The macro `CD_PREV_CHAR`. -/
def CD_PREV_CHAR : CString := ['-']

/-- The macro `EXIT_COMMAND`. -/
def EXIT_COMMAND : CString := ['e', 'x', 'i', 't']

/-- The macro `JOBS_COMMAND`. -/
def JOBS_COMMAND : CString := ['j', 'o', 'b', 's']

/-- The macro `ECHO_COMMAND`. -/
def ECHO_COMMAND : CString := ['e', 'c', 'h', 'o']

/-- The macro `HISTORY_COMMAND`. -/
def HISTORY_COMMAND : CString := ['h', 'i', 's', 't', 'o', 'r', 'y']

/-- The macro `COMMANDS_DIR`. -/
def COMMANDS_DIR : CString := ['/', 'b', 'i', 'n', '/']

/-- The double-quote character removed from the words of an `echo` command. -/
def QUOTE_CHAR : Char := Char.ofNat 34

/-! ## The C library functions the program uses -/

/-- The call `strnlen(s, n)`. -/
def strnlen (s : CString) (n : Nat) : Nat := min s.length n

/-- The call `strncat(dst, src, n)`: `dst` followed by at most `n` characters of `src`. -/
def strncat (dst src : CString) (n : Nat) : CString := dst ++ src.take n

/-- The call `strncpy(dst, src, n)` into a zeroed buffer: at most `n` characters of `src`. -/
def strncpy (src : CString) (n : Nat) : CString := src.take n

/-- The test `strncmp(a, b, n) == 0`: the strings agree on their first `n`
characters, the terminating NUL of a shorter string included. -/
def strncmp_eq (a b : CString) (n : Nat) : Bool := a.take n == b.take n

/-- The effect of `buf[i] = 0` on the string held in `buf`: it ends at `i`
when `i` lies inside it and is left as it is otherwise. -/
def store_nul (buf : CString) (i : Nat) : CString := buf.take i

/-- The NUL character, which ends a C string. -/
def NUL : Char := Char.ofNat 0

/-- The C string held in a buffer of bytes: the bytes before the first NUL. -/
def c_str (buf : List Char) : CString := buf.takeWhile (fun c => c ≠ NUL)

/-- The conversion `%d` of `printf`. -/
def fmt_d (n : Int) : String := toString n

/-- The conversion `%s` of `printf`. -/
def fmt_s (s : CString) : String := String.mk s

/-! ## Data model (lines 58-78) -/

/-- The struct `Command`. -/
structure Command where
  pid : Int
  command_line : CString
deriving DecidableEq

/-- The struct `CommandsRecord`.  `commands i` is the array slot `i`; the C
array has the slots `0 .. MAX_COMMANDS_NUM - 1`, an index from
`MAX_COMMANDS_NUM` on lies past its end. -/
structure CommandsRecord where
  amount : Nat
  commands : Nat → Command

/-- The assignment `commands[i] = c`. -/
def store (commands : Nat → Command) (i : Nat) (c : Command) : Nat → Command :=
  fun j => if j = i then c else commands j

/-- The state of the shell process: the commands record of `shell_loop`, the
global `prev_dir`, the working directory, what was written to the two output
streams (one item per call), the children waited for and whether `SIGCHLD` is
ignored. -/
structure World where
  commands_record : CommandsRecord
  prev_dir : CString
  cwd : CString
  stdout : List String
  stderr : List String
  waited : List Int
  sigchld_ignored : Bool

/-- The operating system as seen by one process.  `getcwd_ok c` tells whether
`getcwd` succeeds in the directory `c`, `stat_is_dir c p` whether
`stat(p)` succeeds in `c` and reports a directory, `chdir c p` the directory
reached by `chdir(p)` from `c` (`none` when the call fails), `getpgid` the
value of the call of that name, `signal_ok` whether `signal` succeeds and
`malloc_ok k` whether the allocation of the word of index `k` succeeds. -/
structure Sys where
  getpid : Int
  HOME : Option CString
  getcwd_ok : CString → Bool
  stat_is_dir : CString → CString → Bool
  chdir : CString → CString → Option CString
  getpgid : Int → Int
  signal_ok : Bool
  malloc_ok : Nat → Bool

/-- How a function that may end the process finishes: it returns a code, the
process calls `exit`, the process calls `execve` (and calls
`exit(EXIT_FAILURE)` when that fails), or it dereferences a pointer that
designates no string (NULL, uninitialised, or an unterminated buffer). -/
inductive Outcome where
  | returned (code : Int) (w : World)
  | exited (status : Int) (w : World)
  | execve (path : CString) (argv : List CString) (w : World)
  | undefined

/-- The macro `LOG_ERROR` with a constant message. -/
def LOG_ERROR (msg : String) (w : World) : World :=
  { w with stderr := w.stderr ++ [msg ++ "\n"] }

/-- A call of `printf`. -/
def printf (s : String) (w : World) : World :=
  { w with stdout := w.stdout ++ [s] }

/-! ## `add_command` (lines 87-115) -/

/-- The string `add_command` builds in `command_line` (lines 94-110): every
word, cut at `MAX_WORD_LEN` characters, followed by a white-space, for the
first `MAX_WORDS_NUM` words; then the store `current_command[command_len - 1] = 0`,
whose index is computed in `size_t`.  With no word at all `command_len` is `0`,
the index wraps around and the store falls outside `command_line`. -/
def command_line_of (words : List CString) : CString :=
  let current_command := (words.take MAX_WORDS_NUM).foldl
    (fun cur word => strncat (strncat cur word MAX_WORD_LEN) WHITE_SPACE 1) []
  let command_len := strnlen current_command MAX_LINE_BUFF_SIZE
  store_nul current_command ((command_len + (SIZE_MODULUS - 1)) % SIZE_MODULUS)

/-- The function `add_command`.  The guard is `amount <= MAX_COMMANDS_NUM`;
past it the entry is stored in the slot `amount` and `amount` is incremented.
The two `strncat` checks cannot fail (`strncat` returns its first argument). -/
def add_command (pid : Int) (words : List CString) (w : World) : Int × World :=
  if ¬ (w.commands_record.amount ≤ MAX_COMMANDS_NUM) then
    (-1, LOG_ERROR "Passed max allowed commands." w)
  else
    (0, { w with commands_record :=
      { amount := w.commands_record.amount + 1
        commands := store w.commands_record.commands w.commands_record.amount
          { pid := pid, command_line := command_line_of words } } })

/-! ## `read_line` and `split_line` (lines 125-222) -/

/-- The function `read_line` on the outcome of `getline`: `none` is a failed
call (end of input), `some raw` the bytes read, the newline included; a line
may hold NUL bytes.  The result is the return code, the bytes of the line
buffer and `*size`; it is `none` when the line does not fit `line_buff`, which
`getline` would then reallocate. -/
def read_line (input : Option (List Char)) : Option (Int × List Char × Nat) :=
  match input with
  | none => some (-1, [], 0)
  | some raw =>
    if MAX_LINE_BUFF_SIZE < raw.length + 1 then none
    else if raw.length = 1 then some (0, raw, 0)
    else some (0, store_nul raw (raw.length - 1), raw.length)

/-- The function `remove_char`, its loop: `src` and `dst` are the offsets of
the two pointers into `buf`; reading the terminating NUL ends the loop and the
store `*dst = 0` follows. -/
def remove_char_loop (garbage : Char) : Nat → CString → Nat → Nat → CString
  | 0, buf, _, dst => store_nul buf dst
  | fuel + 1, buf, src, dst =>
    match buf[src]? with
    | none => store_nul buf dst
    | some c =>
      if c ≠ garbage then remove_char_loop garbage fuel (buf.set dst c) (src + 1) (dst + 1)
      else remove_char_loop garbage fuel (buf.set dst c) (src + 1) dst

/-- The function `remove_char` (lines 160-174); the loop runs once per
character of `str` and once more to read the NUL. -/
def remove_char (str : CString) (garbage : Char) : CString :=
  remove_char_loop garbage (str.length + 1) str 0 0

/-- The successive results of `strtok` with the delimiter `" "` on a C string:
the maximal runs of characters other than a space. -/
def strtok (line : CString) : List CString :=
  (line.splitOn ' ').filter (fun t => t ≠ [])

/-- The loop of `split_line` over the tokens still to come; `words` holds the
copies made so far, so `words.length` is `words_counter`.  The result is the
return code, the words array, `*num_of_words`, which a failing return leaves
as it was, and the messages logged on the error stream.  It is `none` when the
word would be stored past the `MAX_WORDS_NUM` entries of the array, or when the
token has `MAX_WORD_LEN` characters or more: `strncpy` then leaves the copy
without a terminating NUL. -/
def split_line_loop (sys : Sys) (num_of_words : Nat) :
    List CString → List CString → Option (Int × List CString × Nat × List String)
  | [], words => some (0, words, words.length, [])
  | word :: rest, words =>
    if ¬ (strnlen word MAX_WORD_LEN ≤ MAX_WORD_LEN) then
      some (-1, words, num_of_words, ["Current word (" ++ fmt_s word ++ ") is too big"])
    else if MAX_WORDS_NUM ≤ words.length then none
    else if ¬ (sys.malloc_ok words.length = true) then
      some (-1, words, num_of_words, ["Failed to allocate memory for a word."])
    else if MAX_WORD_LEN ≤ word.length then none
    else split_line_loop sys num_of_words rest (words ++ [strncpy word MAX_WORD_LEN])

/-- The function `split_line` (lines 186-222) on the bytes of the line buffer:
`strnlen` and `strtok` read the C string they hold, which ends at the first
NUL byte. -/
def split_line (sys : Sys) (line : List Char) (num_of_words : Nat) :
    Option (Int × List CString × Nat × List String) :=
  if strnlen (c_str line) MAX_LINE_BUFF_SIZE = 0 then some (0, [], 0, [])
  else split_line_loop sys num_of_words (strtok (c_str line)) []

/-! ## The process launcher (lines 234-333) -/

/-- The functions passed to `run_process` as `child_func`. -/
inductive ChildFunc where
  | execute_jobs
  | execute_history
  | child_command_executor
deriving DecidableEq

/-- The functions passed to `run_process` as `parent_func`. -/
inductive ParentFunc where
  | wait_parent
  | background_parent
deriving DecidableEq

/-- The function `wait_parent` (lines 265-275). -/
def wait_parent (pid : Int) (words : List CString) (w : World) : Int × World :=
  let res := add_command pid words { w with waited := w.waited ++ [pid] }
  if res.1 = 0 then (0, res.2) else (-1, LOG_ERROR "Failed to add the command." res.2)

/-- The function `background_parent` (lines 285-295). -/
def background_parent (sys : Sys) (pid : Int) (words : List CString) (w : World) :
    Int × World :=
  if ¬ (sys.signal_ok = true) then (-1, LOG_ERROR "Error in system call" w)
  else
    let res := add_command pid words { w with sigchld_ignored := true }
    if res.1 = 0 then (0, res.2) else (-1, LOG_ERROR "Failed to add the command." res.2)

/-- The function `child_command_executor` (lines 304-333).  `temp` has room
for `MAX_WORD_LEN` characters; a first word of more than 95 characters makes
`strncat` write past it, and the path is then cut by the `strncpy` back. -/
def child_command_executor (sys : Sys) (words : List CString) (w : World) : Outcome :=
  match words with
  | [] => Outcome.undefined
  | word0 :: rest =>
    let stripped :=
      if strncmp_eq word0 ECHO_COMMAND MAX_WORD_LEN = true then
        ((word0 :: rest).take MAX_WORDS_NUM).map (fun x => remove_char x QUOTE_CHAR)
          ++ (word0 :: rest).drop MAX_WORDS_NUM
      else word0 :: rest
    let temp := strncat (strncpy COMMANDS_DIR (MAX_WORD_LEN + 1)) (stripped.headD word0)
      (MAX_WORD_LEN + 1 - 1)
    let path := strncpy temp MAX_WORD_LEN
    Outcome.execve path (path :: stripped.tail) (printf (fmt_d sys.getpid ++ "\n") w)

/-- The function `execute_jobs` (lines 343-360); `words` is unused. -/
def execute_jobs (sys : Sys) (w : World) : Outcome :=
  Outcome.exited 0 ((List.range w.commands_record.amount).foldl
    (fun acc i =>
      if sys.getpgid (acc.commands_record.commands i).pid ≥ 0 then
        printf (fmt_d (acc.commands_record.commands i).pid ++ " "
          ++ fmt_s (acc.commands_record.commands i).command_line ++ "\n") acc
      else acc) w)

/-- The function `execute_history` (lines 368-388); `words` is unused. -/
def execute_history (sys : Sys) (w : World) : Outcome :=
  Outcome.exited 0 (printf (fmt_d sys.getpid ++ " history RUNNING\n")
    ((List.range w.commands_record.amount).foldl
      (fun acc i =>
        printf (fmt_d (acc.commands_record.commands i).pid ++ " "
          ++ fmt_s (acc.commands_record.commands i).command_line ++ " "
          ++ (if sys.getpgid (acc.commands_record.commands i).pid ≥ 0 then "RUNNING" else "DONE")
          ++ "\n") acc) w))

/-- The function `run_process` (lines 234-255) in the process where `fork`
returned `fork_ret`: a negative value is a failed call, `0` the child, a
positive value the parent holding the pid of the child. -/
def run_process (sys : Sys) (child_func : ChildFunc) (words : List CString)
    (parent_func : ParentFunc) (fork_ret : Int) (w : World) : Outcome :=
  if ¬ (fork_ret ≥ 0) then Outcome.returned (-1) (LOG_ERROR "Error in system call" w)
  else if fork_ret = 0 then
    match child_func with
    | ChildFunc.execute_jobs => execute_jobs sys w
    | ChildFunc.execute_history => execute_history sys w
    | ChildFunc.child_command_executor => child_command_executor sys words w
  else
    let res := match parent_func with
      | ParentFunc.wait_parent => wait_parent fork_ret words w
      | ParentFunc.background_parent => background_parent sys fork_ret words w
    if res.1 = 0 then Outcome.returned 0 res.2
    else Outcome.returned (-1)
      (LOG_ERROR "Failed to run the function on the parent's process" res.2)

/-! ## `execute_cd` (lines 390-445) -/

/-- The end of `execute_cd` after the target was chosen: `chdir(target)`, then
the copy of `temp` into `prev_dir` (lines 440-441). -/
def cd_into (sys : Sys) (target : Option CString) (temp : CString) (w : World) : Outcome :=
  match target.bind (sys.chdir w.cwd) with
  | none => Outcome.returned (-1) (LOG_ERROR "Error in system call" w)
  | some dir => Outcome.returned 0 { w with cwd := dir, prev_dir := strncpy temp MAX_WORD_LEN }

/-- The function `execute_cd`.  `temp` is the result of `getcwd`.  Reading
`words[1]` where the array has no second word, or `prev_dir` where it holds
`MAX_WORD_LEN` characters and no NUL, is `undefined`. -/
def execute_cd (sys : Sys) (words : List CString) (num_of_words : Nat) (w : World) : Outcome :=
  let res := add_command sys.getpid words (printf (fmt_d sys.getpid ++ "\n") w)
  if ¬ (res.1 = 0) then Outcome.returned (-1) (LOG_ERROR "Failed to add a command." res.2)
  else if ¬ (num_of_words ≤ 2) then
    Outcome.returned (-1) (LOG_ERROR "Error: Too many arguments" res.2)
  else if ¬ (sys.getcwd_ok res.2.cwd = true) then
    Outcome.returned (-1) (LOG_ERROR "Failed to get the current directory." res.2)
  else if num_of_words = 1 then cd_into sys sys.HOME res.2.cwd res.2
  else
    match words[1]? with
    | none => Outcome.undefined
    | some arg =>
      if strncmp_eq arg CD_HOME_CHAR 1 = true then cd_into sys sys.HOME res.2.cwd res.2
      else if strncmp_eq arg CD_PREV_CHAR 1 = true then
        if MAX_WORD_LEN ≤ res.2.prev_dir.length then Outcome.undefined
        else if ¬ (strnlen res.2.prev_dir MAX_WORD_LEN > 0) then
          Outcome.returned (-1) (LOG_ERROR "cd: OLDPWD not set" res.2)
        else cd_into sys (some res.2.prev_dir) res.2.cwd res.2
      else if sys.stat_is_dir res.2.cwd arg = true then cd_into sys (some arg) res.2.cwd res.2
      else Outcome.returned 0 (LOG_ERROR "Error: No such file or directory" res.2)

/-! ## `handle_command` and `shell_loop` (lines 455-555) -/

/-- The macro `CHECK_RET` around a call of `run_process`, and the `return 0`
that follows it. -/
def check_run (o : Outcome) (msg : String) : Outcome :=
  match o with
  | Outcome.returned code w =>
    if code = 0 then Outcome.returned 0 w else Outcome.returned (-1) (LOG_ERROR msg w)
  | other => other

/-- The function `handle_command`.  `words[0]` of an array without a word and
`words[num_of_words - 1]` outside the words are `undefined`.  Erasing the last
word leaves the array ending one entry earlier. -/
def handle_command (sys : Sys) (fork_ret : Int) (words : List CString) (num_of_words : Nat)
    (w : World) : Outcome :=
  match words[0]? with
  | none => Outcome.undefined
  | some word0 =>
    if strncmp_eq word0 CD_COMMAND MAX_WORD_LEN = true then
      match execute_cd sys words num_of_words w with
      | Outcome.returned _ w1 => Outcome.returned 0 w1
      | other => other
    else if strncmp_eq word0 EXIT_COMMAND MAX_WORD_LEN = true then
      Outcome.exited 0 (printf (fmt_d sys.getpid ++ "\n") w)
    else if strncmp_eq word0 JOBS_COMMAND MAX_WORD_LEN = true then
      check_run (run_process sys ChildFunc.execute_jobs words ParentFunc.wait_parent fork_ret w)
        "Failed to execute the command `jobs`."
    else if strncmp_eq word0 HISTORY_COMMAND MAX_WORD_LEN = true then
      check_run (run_process sys ChildFunc.execute_history words ParentFunc.wait_parent
        fork_ret w) "Failed to execute the command `history`."
    else if num_of_words = 0 then Outcome.undefined
    else
      match words[num_of_words - 1]? with
      | none => Outcome.undefined
      | some last =>
        if strncmp_eq last AMPERSAND_CHAR 1 = true then
          check_run (run_process sys ChildFunc.child_command_executor
            (words.take (num_of_words - 1)) ParentFunc.background_parent fork_ret w)
            "Failed to execute the current command."
        else
          check_run (run_process sys ChildFunc.child_command_executor words
            ParentFunc.wait_parent fork_ret w) "Failed to execute the current command."

/-- The messages of `LOG_ERROR` calls, in their order, on the error stream. -/
def log_all (msgs : List String) (w : World) : World :=
  msgs.foldl (fun acc msg => LOG_ERROR msg acc) w

/-- One pass through the body of the `do ... while (1 == 1)` of `shell_loop`
(lines 522-554), on the outcome `input` of `getline` and the value `fork_ret`
that `fork` returns if it is called.  `Outcome.returned 0 w` stands for
reaching the end of the body in the state `w`: the loop condition is constant,
so the next pass follows.  `num_of_words` is `0` at the start of every pass. -/
def shell_loop_body (sys : Sys) (fork_ret : Int) (input : Option (List Char)) (w : World) :
    Outcome :=
  match read_line input with
  | none => Outcome.undefined
  | some (code, line_buff, line_size) =>
    let w1 := if code = 0 then printf PROMPT w
      else LOG_ERROR "Failed to get a line from the user" (printf PROMPT w)
    if line_size > 0 then
      match split_line sys line_buff 0 with
      | none => Outcome.undefined
      | some (code2, words, num_of_words, msgs) =>
        let w2 := if code2 = 0 then log_all msgs w1
          else LOG_ERROR "Failed to split the line to words." (log_all msgs w1)
        match handle_command sys fork_ret words num_of_words w2 with
        | Outcome.returned code3 w3 =>
          Outcome.returned 0
            (if code3 = 0 then w3 else LOG_ERROR "Failed to handle the current command." w3)
        | other => other
    else Outcome.returned 0 w1

/-- The function `shell_loop` run over the given passes: each item is the
outcome of `getline` and of `fork` for one pass.  `Outcome.returned 0 w` means
the loop is still running, in the state `w`, after all of them. -/
def shell_loop (sys : Sys) : List (Option (List Char) × Int) → World → Outcome
  | [], w => Outcome.returned 0 w
  | (input, fork_ret) :: rest, w =>
    match shell_loop_body sys fork_ret input w with
    | Outcome.returned _ w1 => shell_loop sys rest w1
    | other => other

/-! ## Vocabulary of the statements -/

/-- The words joined by single spaces, with no space after the last one. -/
def join_words (words : List CString) : CString := List.intercalate [' '] words

/-- Every word followed by a white-space, one after the other: the string in
`command_line` when the loop of `add_command` ends. -/
def spaced : List CString → CString
  | [] => []
  | word :: rest => word ++ ' ' :: spaced rest

/-- Successive calls of `add_command`, one per item, with their return codes. -/
def add_commands : List (Int × List CString) → World → List Int × World
  | [], w => ([], w)
  | (pid, words) :: rest, w =>
    ((add_command pid words w).1 :: (add_commands rest (add_command pid words w).2).1,
      (add_commands rest (add_command pid words w).2).2)

/-- The entries of the ledger, in the order of their slots. -/
def entries (r : CommandsRecord) : List Command := (List.range r.amount).map r.commands

/-- The words fit the buffers of the tokenizer: at most `MAX_WORDS_NUM` words
of at most `MAX_WORD_LEN` characters. -/
def words_fit (words : List CString) : Prop :=
  words.length ≤ MAX_WORDS_NUM ∧ ∀ x ∈ words, x.length ≤ MAX_WORD_LEN

/-- The directories of the sample file system. -/
def sample_dirs : List CString := [['/'], ['/', 't', 'm', 'p'], ['/', 'r', 'o', 'o', 't']]

/-- A sample operating system: the process has pid 500, `HOME` is `/root`,
the directories are `sample_dirs`, only the process 7 is alive. -/
def sample_sys : Sys :=
  { getpid := 500
    HOME := some ['/', 'r', 'o', 'o', 't']
    getcwd_ok := fun _ => true
    stat_is_dir := fun _ p => decide (p ∈ sample_dirs)
    chdir := fun _ p => if p ∈ sample_dirs then some p else none
    getpgid := fun pid => if pid = 7 then 7 else -1
    signal_ok := true
    malloc_ok := fun _ => true }

/-- A ledger without entries. -/
def empty_record : CommandsRecord :=
  { amount := 0, commands := fun _ => { pid := 0, command_line := [] } }

/-- A ledger holding `MAX_COMMANDS_NUM` entries. -/
def full_record : CommandsRecord :=
  { amount := MAX_COMMANDS_NUM, commands := fun i => { pid := i, command_line := ['l', 's'] } }

/-- A session at its start, in the directory `/root`. -/
def sample_world : World :=
  { commands_record := empty_record
    prev_dir := []
    cwd := ['/', 'r', 'o', 'o', 't']
    stdout := []
    stderr := []
    waited := []
    sigchld_ignored := false }

/-- The sample session with a full ledger. -/
def full_world : World := { sample_world with commands_record := full_record }


/-- The sample session in the directory `/tmp`. -/
def tmp_world : World := { sample_world with cwd := ['/', 't', 'm', 'p'] }

/-- The sample session in `/tmp` after a change of directory made from `/`. -/
def tmp_world_from_root : World := { tmp_world with prev_dir := ['/'] }

/-- The path `p` is the absolute path of an existing directory: it begins with
a slash, `stat` reports a directory and `chdir` enters it from every working
directory, and `getcwd` succeeds in it. -/
def is_directory (sys : Sys) (p : CString) : Prop :=
  p.head? = some '/' ∧ sys.getcwd_ok p = true ∧
    ∀ c, sys.stat_is_dir c p = true ∧ sys.chdir c p = some p

/-- The lines the specification gives for `jobs`: one line `<pid> <command_text>`
for each entry whose liveness probe `getpgid(pid) >= 0` succeeds, in ledger order. -/
def jobs_lines (sys : Sys) (r : CommandsRecord) : List String :=
  ((entries r).filter (fun c => decide (sys.getpgid c.pid ≥ 0))).map
    (fun c => fmt_d c.pid ++ " " ++ fmt_s c.command_line ++ "\n")

/-- The lines the specification gives for `history`: one line
`<pid> <command_text> RUNNING` or `<pid> <command_text> DONE` for every entry,
in ledger order, then the line `<own_pid> history RUNNING`. -/
def history_lines (sys : Sys) (r : CommandsRecord) : List String :=
  (entries r).map (fun c => fmt_d c.pid ++ " " ++ fmt_s c.command_line ++ " "
      ++ (if sys.getpgid c.pid ≥ 0 then "RUNNING" else "DONE") ++ "\n")
    ++ [fmt_d sys.getpid ++ " history RUNNING\n"]

/-- The words of the line `raw` read by `getline`: its last byte, the newline,
is replaced by a NUL and the C string in the buffer is cut at the spaces. -/
def line_words (raw : List Char) : List CString :=
  strtok (c_str (store_nul raw (raw.length - 1)))

/-- The input of one pass of `shell_loop` is within the buffers of the program:
it is the end of the input, or a line that fits `line_buff`, is empty or has a
word, and has at most `MAX_WORDS_NUM` words of less than `MAX_WORD_LEN`
characters. -/
def accepted_input (input : Option (List Char)) : Prop :=
  match input with
  | none => True
  | some raw =>
    raw.length + 1 ≤ MAX_LINE_BUFF_SIZE ∧ (raw.length ≤ 1 ∨ line_words raw ≠ []) ∧
      (line_words raw).length ≤ MAX_WORDS_NUM ∧ ∀ t ∈ line_words raw, t.length < MAX_WORD_LEN

/-- The words array that one pass of `shell_loop` hands to `handle_command`,
when it gets that far: the words `split_line` stored, also when it failed. -/
def words_read (sys : Sys) (input : Option (List Char)) : Option (List CString) :=
  match read_line input with
  | none => none
  | some (_, line_buff, line_size) =>
    if line_size > 0 then (split_line sys line_buff 0).map (fun r => r.2.1) else none

/-- The command of one pass is `exit`: the first word of the words array
handed to `handle_command` is `exit`. -/
def exit_command_read (sys : Sys) (input : Option (List Char)) : Prop :=
  (words_read sys input).bind List.head? = some EXIT_COMMAND

instance (sys : Sys) (input : Option (List Char)) : Decidable (exit_command_read sys input) :=
  inferInstanceAs (Decidable ((words_read sys input).bind List.head? = some EXIT_COMMAND))

/-- A sample operating system in which only the first word of a line can be
allocated. -/
def low_memory_sys : Sys := { sample_sys with malloc_ok := fun k => decide (k = 0) }

/-- The newline character that ends a line read by `getline`. -/
def NEWLINE : Char := Char.ofNat 10

/-! ## The ledger: `add_command` -/

/-- The loop of `add_command` over words of at most `MAX_WORD_LEN` characters
appends `spaced` of the words. -/
theorem foldl_strncat_spaced (ws : List CString) :
    ∀ acc : CString, (∀ x ∈ ws, x.length ≤ MAX_WORD_LEN) →
      ws.foldl (fun cur word => strncat (strncat cur word MAX_WORD_LEN) WHITE_SPACE 1) acc
        = acc ++ spaced ws := by
  induction ws with
  | nil => intro acc _; simp [spaced]
  | cons x rest ih =>
    intro acc h
    have hx : x.length ≤ MAX_WORD_LEN := h x (List.mem_cons_self _ _)
    have hrest : ∀ y ∈ rest, y.length ≤ MAX_WORD_LEN := fun y hy => h y (List.mem_cons_of_mem _ hy)
    rw [List.foldl_cons, ih _ hrest]
    simp [strncat, WHITE_SPACE, spaced, List.take_of_length_le hx]

/-- The string built by the loop has at most `MAX_WORD_LEN + 1` characters per
word. -/
theorem spaced_length_le (ws : List CString) (h : ∀ x ∈ ws, x.length ≤ MAX_WORD_LEN) :
    (spaced ws).length ≤ (MAX_WORD_LEN + 1) * ws.length := by
  induction ws with
  | nil => simp [spaced]
  | cons x rest ih =>
    have hx : x.length ≤ MAX_WORD_LEN := h x (List.mem_cons_self _ _)
    have := ih (fun y hy => h y (List.mem_cons_of_mem _ hy))
    simp only [spaced, List.length_append, List.length_cons]
    rw [Nat.mul_succ]
    omega

/-- The string built by the loop from at least one word is not empty. -/
theorem spaced_length_pos (ws : List CString) (h : ws ≠ []) : 0 < (spaced ws).length := by
  cases ws with
  | nil => exact absurd rfl h
  | cons x rest => simp [spaced]

/-- Joining two words or more: the first word, a space, the others joined. -/
theorem join_words_cons_cons (x y : CString) (rest : List CString) :
    join_words (x :: y :: rest) = x ++ ' ' :: join_words (y :: rest) := by
  simp [join_words, List.intercalate, List.intersperse]

/-- Removing the last white-space of `spaced` gives the words joined by single
spaces. -/
theorem spaced_take_eq_join (ws : List CString) (h : ws ≠ []) :
    (spaced ws).take ((spaced ws).length - 1) = join_words ws := by
  induction ws with
  | nil => exact absurd rfl h
  | cons x rest ih =>
    cases rest with
    | nil => simp [spaced, join_words, List.intercalate, List.intersperse]
    | cons y rest2 =>
      have hpos := spaced_length_pos (y :: rest2) (by simp)
      have ih2 := ih (by simp)
      rw [join_words_cons_cons, ← ih2]
      have hlen : (spaced (x :: y :: rest2)).length - 1
          = x.length + (1 + ((spaced (y :: rest2)).length - 1)) := by
        simp only [spaced, List.length_append, List.length_cons] at hpos ⊢
        omega
      rw [hlen]
      show (x ++ ' ' :: spaced (y :: rest2)).take _ = _
      rw [List.take_append, Nat.add_comm 1, List.take_succ_cons]

/-- For a non-empty list of words that fit the buffers, `add_command` builds
the words joined by single spaces. -/
theorem command_line_of_eq_join (words : List CString) (hne : words ≠ []) (hfit : words_fit words) :
    command_line_of words = join_words words := by
  obtain ⟨hlen, hw⟩ := hfit
  have hsp := spaced_length_le words hw
  have hpos := spaced_length_pos words hne
  have hbound : (spaced words).length ≤ 10100 := by
    have : (MAX_WORD_LEN + 1) * words.length ≤ (MAX_WORD_LEN + 1) * MAX_WORDS_NUM :=
      Nat.mul_le_mul_left _ hlen
    simp only [MAX_WORD_LEN, MAX_WORDS_NUM] at this hsp
    omega
  have hfold : (words.take MAX_WORDS_NUM).foldl
      (fun cur word => strncat (strncat cur word MAX_WORD_LEN) WHITE_SPACE 1) [] = spaced words := by
    rw [List.take_of_length_le hlen, foldl_strncat_spaced words [] hw, List.nil_append]
  simp only [command_line_of, hfold]
  simp only [strnlen, MAX_LINE_BUFF_SIZE, MAX_WORDS_NUM, MAX_WORD_LEN, SIZE_MODULUS, store_nul]
  have hidx : (min (spaced words).length (100 * (100 + 1) + 1) + (18446744073709551616 - 1))
      % 18446744073709551616 = (spaced words).length - 1 := by omega
  rw [hidx]
  exact spaced_take_eq_join words hne

/-- With `amount` within the guard, `add_command` returns `0`, stores the
entry in the slot `amount` and increments `amount`. -/
theorem add_command_below (pid : Int) (words : List CString) (w : World)
    (h : w.commands_record.amount ≤ MAX_COMMANDS_NUM) :
    add_command pid words w = (0, { w with commands_record :=
      { amount := w.commands_record.amount + 1
        commands := store w.commands_record.commands w.commands_record.amount
          { pid := pid, command_line := command_line_of words } } }) := by
  simp [add_command, h]

/-- A call of `add_command` leaves the slots below `amount` as they are. -/
theorem add_command_keeps (pid : Int) (words : List CString) (w : World) (j : Nat)
    (hj : j < w.commands_record.amount) :
    (add_command pid words w).2.commands_record.commands j = w.commands_record.commands j := by
  unfold add_command
  split
  · rfl
  · simp only [store]
    rw [if_neg (Nat.ne_of_lt hj)]

/-- Successive appends that stay within the array: return codes, final
`amount`, old and new slots. -/
theorem add_commands_spec (cmds : List (Int × List CString)) :
    ∀ w : World, w.commands_record.amount + cmds.length ≤ MAX_COMMANDS_NUM →
      (∀ c ∈ cmds, c.2 ≠ [] ∧ words_fit c.2) →
      (add_commands cmds w).1 = List.replicate cmds.length 0 ∧
      (add_commands cmds w).2.commands_record.amount = w.commands_record.amount + cmds.length ∧
      (∀ j, j < w.commands_record.amount →
        (add_commands cmds w).2.commands_record.commands j = w.commands_record.commands j) ∧
      (∀ i (h : i < cmds.length),
        (add_commands cmds w).2.commands_record.commands (w.commands_record.amount + i)
          = { pid := cmds[i].1, command_line := join_words cmds[i].2 }) := by
  induction cmds with
  | nil => intro w _ _; simp [add_commands]
  | cons c rest ih =>
    intro w hroom hwf
    obtain ⟨pid, words⟩ := c
    have hle : w.commands_record.amount ≤ MAX_COMMANDS_NUM := by
      simp only [List.length_cons] at hroom; omega
    have hc := hwf (pid, words) (List.mem_cons_self _ _)
    have hstep := add_command_below pid words w hle
    have hamount : (add_command pid words w).2.commands_record.amount
        = w.commands_record.amount + 1 := by rw [hstep]
    have hslot : (add_command pid words w).2.commands_record.commands w.commands_record.amount
        = { pid := pid, command_line := join_words words } := by
      rw [hstep]; simp [store, command_line_of_eq_join words hc.1 hc.2]
    obtain ⟨h1, h2, h3, h4⟩ := ih (add_command pid words w).2
      (by rw [hamount]; simp only [List.length_cons] at hroom; omega)
      (fun c hc => hwf c (List.mem_cons_of_mem _ hc))
    refine ⟨?_, ?_, ?_, ?_⟩
    · have hcode : (add_command pid words w).1 = 0 := by rw [hstep]
      simp only [add_commands, h1, hcode, List.length_cons, List.replicate_succ]
    · simp only [add_commands, h2, hamount, List.length_cons]; omega
    · intro j hj
      simp only [add_commands]
      rw [h3 j (by rw [hamount]; omega)]
      exact add_command_keeps pid words w j hj
    · intro i hi
      simp only [add_commands]
      cases i with
      | zero =>
        rw [Nat.add_zero, h3 _ (by rw [hamount]; omega), hslot]
        simp
      | succ k =>
        have hk : k < rest.length := by simp only [List.length_cons] at hi; omega
        have := h4 k hk
        rw [hamount] at this
        rw [show w.commands_record.amount + (k + 1) = w.commands_record.amount + 1 + k by omega,
          this]
        simp

/-- C1 (capacity boundary), evaluated on the code.  On every ledger that holds
exactly `MAX_COMMANDS_NUM` entries the guard `amount <= MAX_COMMANDS_NUM` of
`add_command` passes: for every pid and words the call returns `0`, not `-1`,
stores the entry in the slot `MAX_COMMANDS_NUM`, one past the last slot of the
array, and leaves `amount = MAX_COMMANDS_NUM + 1`. -/
theorem add_command_at_capacity (pid : Int) (words : List CString) (w : World)
    (hfull : w.commands_record.amount = MAX_COMMANDS_NUM) :
    (add_command pid words w).1 = 0 ∧
    (add_command pid words w).2.commands_record.amount = MAX_COMMANDS_NUM + 1 ∧
    (add_command pid words w).2.commands_record.commands MAX_COMMANDS_NUM
      = { pid := pid, command_line := command_line_of words } := by
  rw [add_command_below pid words w (Nat.le_of_eq hfull)]
  refine ⟨rfl, ?_, ?_⟩
  · show w.commands_record.amount + 1 = MAX_COMMANDS_NUM + 1
    rw [hfull]
  · show store w.commands_record.commands w.commands_record.amount _ MAX_COMMANDS_NUM = _
    rw [hfull]
    simp [store]

/-- The failing input of C1: the command `pwd` of the process 4242 appended to
the sample ledger of `MAX_COMMANDS_NUM` entries. -/
theorem add_command_at_capacity_witness :
    full_world.commands_record.amount = 100 ∧
    (add_command 4242 [['p', 'w', 'd']] full_world).1 = 0 ∧
    (add_command 4242 [['p', 'w', 'd']] full_world).2.commands_record.amount = 101 ∧
    (add_command 4242 [['p', 'w', 'd']] full_world).2.commands_record.commands 100
      = { pid := 4242, command_line := ['p', 'w', 'd'] } :=
  have h := add_command_at_capacity 4242 [['p', 'w', 'd']] full_world rfl
  ⟨rfl, h.1, h.2.1, h.2.2⟩

/-- The guard of `add_command` as it is written: the call is rejected, with
the return code `-1` and the ledger as it was, exactly when `amount` is above
`MAX_COMMANDS_NUM`. -/
theorem add_command_rejects_iff (pid : Int) (words : List CString) (w : World) :
    ((add_command pid words w).1 = -1 ↔ MAX_COMMANDS_NUM < w.commands_record.amount) ∧
    ((add_command pid words w).1 = -1 →
      (add_command pid words w).2.commands_record = w.commands_record) := by
  unfold add_command
  split
  · rename_i h
    exact ⟨⟨fun _ => Nat.lt_of_not_le h, fun _ => rfl⟩, fun _ => rfl⟩
  · rename_i h
    refine ⟨⟨fun h0 => ?_, fun h1 => ?_⟩, fun h0 => ?_⟩
    · simp at h0
    · exact absurd (Nat.le_of_not_lt (fun hlt => h (Nat.not_le.mpr hlt))) (Nat.not_le.mpr h1)
    · simp at h0

/-- C2 (ledger round trip).  From a ledger without entries, `N ≤ MAX_COMMANDS_NUM`
successive calls of `add_command`, each on a non-empty list of at most
`MAX_WORDS_NUM` words of at most `MAX_WORD_LEN` characters, all return `0` and
leave `amount = N`; the slot `i` holds the `i`-th pid and the `i`-th words
joined by single spaces with no trailing space; and a call of `add_command`
never changes a slot below `amount`. -/
theorem ledger_round_trip (w : World) (cmds : List (Int × List CString))
    (hempty : w.commands_record.amount = 0)
    (hN : cmds.length ≤ MAX_COMMANDS_NUM)
    (hwords : ∀ c ∈ cmds, c.2 ≠ [] ∧ c.2.length ≤ MAX_WORDS_NUM ∧
      ∀ x ∈ c.2, x.length ≤ MAX_WORD_LEN) :
    (add_commands cmds w).1 = List.replicate cmds.length 0 ∧
    (add_commands cmds w).2.commands_record.amount = cmds.length ∧
    (∀ i (h : i < cmds.length),
      (add_commands cmds w).2.commands_record.commands i
        = { pid := cmds[i].1, command_line := join_words cmds[i].2 }) ∧
    (∀ (pid : Int) (words : List CString) (v : World) (j : Nat),
      j < v.commands_record.amount →
      (add_command pid words v).2.commands_record.commands j = v.commands_record.commands j) := by
  obtain ⟨h1, h2, _, h4⟩ := add_commands_spec cmds w (by rw [hempty]; omega)
    (fun c hc => ⟨(hwords c hc).1, (hwords c hc).2.1, (hwords c hc).2.2⟩)
  refine ⟨h1, by rw [h2, hempty]; omega, ?_, add_command_keeps⟩
  intro i hi
  have := h4 i hi
  rw [hempty, Nat.zero_add] at this
  exact this


/-- Witness of C2: two appends, `ls -l` by the process 11 and `pwd` by the
process 12, to the ledger of a fresh session. -/
theorem ledger_round_trip_witness :
    (add_commands [(11, [['l', 's'], ['-', 'l']]), (12, [['p', 'w', 'd']])]
        sample_world).1 = [0, 0] ∧
    (add_commands [(11, [['l', 's'], ['-', 'l']]), (12, [['p', 'w', 'd']])]
        sample_world).2.commands_record.amount = 2 ∧
    (add_commands [(11, [['l', 's'], ['-', 'l']]), (12, [['p', 'w', 'd']])]
        sample_world).2.commands_record.commands 0
      = { pid := 11, command_line := ['l', 's', ' ', '-', 'l'] } ∧
    (add_commands [(11, [['l', 's'], ['-', 'l']]), (12, [['p', 'w', 'd']])]
        sample_world).2.commands_record.commands 1
      = { pid := 12, command_line := ['p', 'w', 'd'] } :=
  have h := ledger_round_trip sample_world
    [(11, [['l', 's'], ['-', 'l']]), (12, [['p', 'w', 'd']])] rfl (by decide) (by decide)
  ⟨h.1, h.2.1, h.2.2.1 0 (by decide), h.2.2.1 1 (by decide)⟩

/-! ## The `cd` builtin: `execute_cd` -/

/-- A comparison of one character with a one-character string tests the first
character. -/
theorem strncmp_eq_one (arg : CString) (c : Char) :
    strncmp_eq arg [c] 1 = true ↔ arg.head? = some c := by
  cases arg with
  | nil => simp [strncmp_eq]
  | cons a rest => simp [strncmp_eq]

/-- A comparison over more characters than the second string has is an
equality test. -/
theorem strncmp_eq_whole (a b : CString) (n : Nat) (hb : b.length < n) :
    strncmp_eq a b n = true ↔ a = b := by
  simp only [strncmp_eq, beq_iff_eq, List.take_of_length_le (Nat.le_of_lt hb)]
  constructor
  · intro h
    have hlen : (a.take n).length < n := by rw [h]; exact hb
    rw [List.length_take] at hlen
    have : a.length ≤ n := by omega
    rw [List.take_of_length_le this] at h
    exact h
  · intro h
    rw [h, List.take_of_length_le (Nat.le_of_lt hb)]

/-- The end of `execute_cd` returns and leaves the ledger as it is. -/
theorem cd_into_returns (sys : Sys) (target : Option CString) (temp : CString) (v : World) :
    ∃ code v', cd_into sys target temp v = Outcome.returned code v' ∧
      v'.commands_record = v.commands_record := by
  unfold cd_into
  split
  · exact ⟨_, _, rfl, rfl⟩
  · exact ⟨_, _, rfl, rfl⟩

/-- After a successful append, `execute_cd` returns, the ledger is the one the
append left, and an argument resolved literally that is not a directory leaves
the working directory and `prev_dir` as they are. -/
theorem execute_cd_shape (sys : Sys) (words : List CString) (w : World) (res : Int × World)
    (hres : add_command sys.getpid words (printf (fmt_d sys.getpid ++ "\n") w) = res)
    (hcode : res.1 = 0) (hlen : 1 ≤ words.length)
    (hprev : res.2.prev_dir.length < MAX_WORD_LEN) :
    ∃ code w', execute_cd sys words words.length w = Outcome.returned code w' ∧
      w'.commands_record = res.2.commands_record ∧
      (∀ arg, words[1]? = some arg → arg.head? ≠ some '~' → arg.head? ≠ some '-' →
        sys.stat_is_dir res.2.cwd arg = false →
        w'.cwd = res.2.cwd ∧ w'.prev_dir = res.2.prev_dir) := by
  simp only [execute_cd, hres, hcode, not_true_eq_false, if_false]
  by_cases h2 : words.length ≤ 2
  · rw [if_neg (not_not.mpr h2)]
    by_cases hg : sys.getcwd_ok res.2.cwd = true
    · rw [if_neg (not_not.mpr hg)]
      by_cases h1 : words.length = 1
      · rw [if_pos h1]
        obtain ⟨code, v, hv, hrec⟩ := cd_into_returns sys sys.HOME res.2.cwd res.2
        refine ⟨code, v, hv, hrec, ?_⟩
        intro arg harg
        rw [List.getElem?_eq_none (by omega)] at harg
        exact absurd harg (by simp)
      · rw [if_neg h1]
        have hsome : ∃ a, words[1]? = some a := by
          have : 1 < words.length := by omega
          exact ⟨words[1], List.getElem?_eq_getElem this⟩
        obtain ⟨a, ha⟩ := hsome
        simp only [ha]
        by_cases hh : strncmp_eq a CD_HOME_CHAR 1 = true
        · rw [if_pos hh]
          obtain ⟨code, v, hv, hrec⟩ := cd_into_returns sys sys.HOME res.2.cwd res.2
          refine ⟨code, v, hv, hrec, ?_⟩
          intro arg harg hne
          cases harg
          exact absurd ((strncmp_eq_one _ '~').mp hh) hne
        · rw [if_neg hh]
          by_cases hp : strncmp_eq a CD_PREV_CHAR 1 = true
          · rw [if_pos hp, if_neg (Nat.not_le.mpr hprev)]
            have hvac : ∀ (v : World) (arg : CString), some a = some arg →
                arg.head? ≠ some '~' → arg.head? ≠ some '-' →
                sys.stat_is_dir res.2.cwd arg = false →
                v.cwd = res.2.cwd ∧ v.prev_dir = res.2.prev_dir := by
              intro v arg harg _ hne
              cases harg
              exact absurd ((strncmp_eq_one _ '-').mp hp) hne
            by_cases hs : strnlen res.2.prev_dir MAX_WORD_LEN > 0
            · rw [if_neg (not_not.mpr hs)]
              obtain ⟨code, v, hv, hrec⟩ :=
                cd_into_returns sys (some res.2.prev_dir) res.2.cwd res.2
              exact ⟨code, v, hv, hrec, hvac v⟩
            · rw [if_pos hs]
              exact ⟨_, _, rfl, rfl, hvac _⟩
          · rw [if_neg hp]
            by_cases hd : sys.stat_is_dir res.2.cwd a = true
            · rw [if_pos hd]
              obtain ⟨code, v, hv, hrec⟩ := cd_into_returns sys (some a) res.2.cwd res.2
              refine ⟨code, v, hv, hrec, ?_⟩
              intro arg harg _ _ hno
              cases harg
              rw [hd] at hno
              exact absurd hno (by simp)
            · rw [if_neg hd]
              exact ⟨_, _, rfl, rfl, fun _ _ _ _ _ => ⟨rfl, rfl⟩⟩
    · rw [if_pos hg]
      exact ⟨_, _, rfl, rfl, fun _ _ _ _ _ => ⟨rfl, rfl⟩⟩
  · rw [if_pos h2]
    exact ⟨_, _, rfl, rfl, fun _ _ _ _ _ => ⟨rfl, rfl⟩⟩

/-- C5 as amended (`cd` records itself).  On a ledger with `amount` below
`MAX_COMMANDS_NUM`, for a `cd` command whose words fit the buffers of the
tokenizer and a terminated `prev_dir`, `execute_cd` returns and has appended
exactly one entry: `amount` grew by one, the new slot holds the pid of the
shell and the words joined by single spaces, the slots below are as before.
When the single argument begins with neither `~` nor `-` and is not an
existing directory, the working directory and `prev_dir` are unchanged. -/
theorem execute_cd_records (sys : Sys) (args : List CString) (w : World)
    (hroom : w.commands_record.amount < MAX_COMMANDS_NUM)
    (hfit : words_fit (CD_COMMAND :: args))
    (hprev : w.prev_dir.length < MAX_WORD_LEN) :
    ∃ code w', execute_cd sys (CD_COMMAND :: args) (args.length + 1) w
        = Outcome.returned code w' ∧
      w'.commands_record.amount = w.commands_record.amount + 1 ∧
      w'.commands_record.commands w.commands_record.amount
        = { pid := sys.getpid, command_line := join_words (CD_COMMAND :: args) } ∧
      (∀ j, j < w.commands_record.amount →
        w'.commands_record.commands j = w.commands_record.commands j) ∧
      (∀ arg, args = [arg] → arg.head? ≠ some '~' → arg.head? ≠ some '-' →
        sys.stat_is_dir w.cwd arg = false → w'.cwd = w.cwd ∧ w'.prev_dir = w.prev_dir) := by
  have hadd := add_command_below sys.getpid (CD_COMMAND :: args)
    (printf (fmt_d sys.getpid ++ "\n") w) (Nat.le_of_lt hroom)
  have htext := command_line_of_eq_join (CD_COMMAND :: args) (by simp) hfit
  obtain ⟨code, v, hv, hrec, hstay⟩ := execute_cd_shape sys (CD_COMMAND :: args) w _ hadd rfl
    (by simp) hprev
  refine ⟨code, v, hv, ?_, ?_, ?_, ?_⟩
  · rw [hrec]; rfl
  · rw [hrec]; simp [store, htext, printf]
  · intro j hj; rw [hrec]; simp [store, printf, Nat.ne_of_lt hj]
  · intro arg harg h1 h2 h3
    exact hstay arg (by rw [harg]; rfl) h1 h2 h3


/-- Witness of C5: `cd /nowhere` in the sample session. -/
theorem execute_cd_records_witness :
    ∃ code w', execute_cd sample_sys [CD_COMMAND, ['/', 'n', 'o', 'w', 'h', 'e', 'r', 'e']] 2
        sample_world = Outcome.returned code w' ∧
      w'.commands_record.amount = 1 ∧
      w'.commands_record.commands 0
        = { pid := 500, command_line := ['c', 'd', ' ', '/', 'n', 'o', 'w', 'h', 'e', 'r', 'e'] } ∧
      w'.cwd = sample_world.cwd ∧ w'.prev_dir = sample_world.prev_dir :=
  have h := execute_cd_records sample_sys [['/', 'n', 'o', 'w', 'h', 'e', 'r', 'e']] sample_world
    (by decide) ⟨by decide, by decide⟩ (by decide)
  h.elim fun code h1 => h1.elim fun w' h2 =>
    ⟨code, w', h2.1, h2.2.1, h2.2.2.1,
      h2.2.2.2.2 ['/', 'n', 'o', 'w', 'h', 'e', 'r', 'e'] rfl (by decide) (by decide) (by decide)⟩

/-- C5 as stated fails: in the sample session in `/tmp`, the single argument
`~` of `cd ~` is not an existing directory, yet `execute_cd` changes the working
directory to `HOME` and sets `prev_dir`. -/
theorem execute_cd_home_marker_moves :
    sample_sys.stat_is_dir tmp_world.cwd ['~'] = false ∧
    ∃ w, execute_cd sample_sys [CD_COMMAND, ['~']] 2 tmp_world = Outcome.returned 0 w ∧
      w.cwd = ['/', 'r', 'o', 'o', 't'] ∧ w.prev_dir = ['/', 't', 'm', 'p'] ∧
      w.cwd ≠ tmp_world.cwd ∧ w.prev_dir ≠ tmp_world.prev_dir :=
  ⟨by decide, _, rfl, by decide, by decide, by decide, by decide⟩

/-- The command `cd dir` for the absolute path of an existing directory. -/
theorem execute_cd_enters (sys : Sys) (dir : CString) (w : World)
    (hroom : w.commands_record.amount ≤ MAX_COMMANDS_NUM)
    (hcwd : sys.getcwd_ok w.cwd = true) (hdir : is_directory sys dir) :
    ∃ w', execute_cd sys [CD_COMMAND, dir] 2 w = Outcome.returned 0 w' ∧
      w'.cwd = dir ∧ w'.prev_dir = w.cwd.take MAX_WORD_LEN ∧
      w'.commands_record.amount = w.commands_record.amount + 1 := by
  obtain ⟨habs, _, hfs⟩ := hdir
  have hadd := add_command_below sys.getpid [CD_COMMAND, dir]
    (printf (fmt_d sys.getpid ++ "\n") w) hroom
  have hhome : strncmp_eq dir CD_HOME_CHAR 1 = false := by
    rw [Bool.eq_false_iff, Ne, CD_HOME_CHAR, strncmp_eq_one, habs]; decide
  have hprev : strncmp_eq dir CD_PREV_CHAR 1 = false := by
    rw [Bool.eq_false_iff, Ne, CD_PREV_CHAR, strncmp_eq_one, habs]; decide
  have hstat : sys.stat_is_dir w.cwd dir = true := (hfs w.cwd).1
  have hch : sys.chdir w.cwd dir = some dir := (hfs w.cwd).2
  have heq : execute_cd sys [CD_COMMAND, dir] 2 w = Outcome.returned 0
      { (add_command sys.getpid [CD_COMMAND, dir] (printf (fmt_d sys.getpid ++ "\n") w)).2 with
        cwd := dir, prev_dir := strncpy w.cwd MAX_WORD_LEN } := by
    simp only [execute_cd, hadd]
    simp [printf, hcwd, hhome, hprev, hstat, cd_into, hch]
  refine ⟨_, heq, rfl, rfl, ?_⟩
  rw [hadd]; rfl

/-- The command `cd -` when `prev_dir` holds the absolute path of an existing
directory. -/
theorem execute_cd_goes_back (sys : Sys) (w : World)
    (hroom : w.commands_record.amount ≤ MAX_COMMANDS_NUM)
    (hcwd : sys.getcwd_ok w.cwd = true) (hdir : is_directory sys w.prev_dir)
    (hlen : w.prev_dir.length < MAX_WORD_LEN) :
    ∃ w', execute_cd sys [CD_COMMAND, CD_PREV_CHAR] 2 w = Outcome.returned 0 w' ∧
      w'.cwd = w.prev_dir ∧ w'.prev_dir = w.cwd.take MAX_WORD_LEN ∧
      w'.commands_record.amount = w.commands_record.amount + 1 := by
  obtain ⟨habs, _, hfs⟩ := hdir
  have hadd := add_command_below sys.getpid [CD_COMMAND, CD_PREV_CHAR]
    (printf (fmt_d sys.getpid ++ "\n") w) hroom
  have hch : sys.chdir w.cwd w.prev_dir = some w.prev_dir := (hfs w.cwd).2
  have hpos : 0 < w.prev_dir.length := by
    cases hp : w.prev_dir with
    | nil => rw [hp] at habs; simp at habs
    | cons a rest => simp
  have hnot : ¬ (MAX_WORD_LEN ≤ w.prev_dir.length) := by omega
  have hlen2 : strnlen w.prev_dir MAX_WORD_LEN > 0 := by
    simp only [strnlen, MAX_WORD_LEN] at hlen ⊢; omega
  have heq : execute_cd sys [CD_COMMAND, CD_PREV_CHAR] 2 w = Outcome.returned 0
      { (add_command sys.getpid [CD_COMMAND, CD_PREV_CHAR]
          (printf (fmt_d sys.getpid ++ "\n") w)).2 with
        cwd := w.prev_dir, prev_dir := strncpy w.cwd MAX_WORD_LEN } := by
    simp only [execute_cd, hadd]
    simp [printf, hcwd, strncmp_eq, CD_PREV_CHAR, CD_HOME_CHAR, cd_into, hch, hnot, hlen2]
  refine ⟨_, heq, rfl, rfl, ?_⟩
  rw [hadd]; rfl

/-- The command `cd -` when `prev_dir` is empty. -/
theorem execute_cd_oldpwd_not_set (sys : Sys) (w : World)
    (hroom : w.commands_record.amount ≤ MAX_COMMANDS_NUM)
    (hcwd : sys.getcwd_ok w.cwd = true) (hunset : w.prev_dir = []) :
    ∃ w', execute_cd sys [CD_COMMAND, CD_PREV_CHAR] 2 w = Outcome.returned (-1) w' ∧
      w'.stderr = w.stderr ++ ["cd: OLDPWD not set\n"] ∧
      w'.cwd = w.cwd ∧ w'.prev_dir = w.prev_dir := by
  have hadd := add_command_below sys.getpid [CD_COMMAND, CD_PREV_CHAR]
    (printf (fmt_d sys.getpid ++ "\n") w) hroom
  have heq : execute_cd sys [CD_COMMAND, CD_PREV_CHAR] 2 w = Outcome.returned (-1)
      (LOG_ERROR "cd: OLDPWD not set" (add_command sys.getpid [CD_COMMAND, CD_PREV_CHAR]
          (printf (fmt_d sys.getpid ++ "\n") w)).2) := by
    simp only [execute_cd, hadd]
    simp [printf, hcwd, strncmp_eq, CD_PREV_CHAR, CD_HOME_CHAR, hunset, strnlen, MAX_WORD_LEN]
  refine ⟨_, heq, ?_, ?_, ?_⟩ <;> rw [hadd] <;> rfl


/-- C6 (`cd -` and the previous directory).  In a session whose ledger has
room and where `getcwd` succeeds: while `prev_dir` is empty, `cd -` returns
`-1` after logging `cd: OLDPWD not set` and changes neither the working
directory nor `prev_dir`; and for existing directories `A` and `B` with paths
shorter than `MAX_WORD_LEN`, `cd A`, `cd B`, `cd -` all succeed, each sets
`prev_dir` to the directory left (cut at `MAX_WORD_LEN` characters), and the
working directory is `A` at the end. -/
theorem cd_previous_directory (sys : Sys) (w : World) (A B : CString)
    (hroom : w.commands_record.amount + 2 < MAX_COMMANDS_NUM)
    (hcwd : sys.getcwd_ok w.cwd = true)
    (hA : is_directory sys A) (hB : is_directory sys B)
    (hAlen : A.length < MAX_WORD_LEN) (hBlen : B.length < MAX_WORD_LEN) :
    (w.prev_dir = [] →
      ∃ w', execute_cd sys [CD_COMMAND, CD_PREV_CHAR] 2 w = Outcome.returned (-1) w' ∧
        w'.stderr = w.stderr ++ ["cd: OLDPWD not set\n"] ∧
        w'.cwd = w.cwd ∧ w'.prev_dir = w.prev_dir) ∧
    ∃ w1 w2 w3,
      execute_cd sys [CD_COMMAND, A] 2 w = Outcome.returned 0 w1 ∧
      w1.cwd = A ∧ w1.prev_dir = w.cwd.take MAX_WORD_LEN ∧
      execute_cd sys [CD_COMMAND, B] 2 w1 = Outcome.returned 0 w2 ∧
      w2.cwd = B ∧ w2.prev_dir = A ∧
      execute_cd sys [CD_COMMAND, CD_PREV_CHAR] 2 w2 = Outcome.returned 0 w3 ∧
      w3.cwd = A ∧ w3.prev_dir = B := by
  refine ⟨execute_cd_oldpwd_not_set sys w (by omega) hcwd, ?_⟩
  obtain ⟨w1, h1, c1, p1, a1⟩ := execute_cd_enters sys A w (by omega) hcwd hA
  obtain ⟨w2, h2, c2, p2, a2⟩ := execute_cd_enters sys B w1 (by omega)
    (by rw [c1]; exact hA.2.1) hB
  have p2' : w2.prev_dir = A := by
    rw [p2, c1, List.take_of_length_le (Nat.le_of_lt hAlen)]
  obtain ⟨w3, h3, c3, p3, _⟩ := execute_cd_goes_back sys w2 (by omega)
    (by rw [c2]; exact hB.2.1) (by rw [p2']; exact hA) (by rw [p2']; exact hAlen)
  refine ⟨w1, w2, w3, h1, c1, p1, h2, c2, p2', h3, by rw [c3, p2'], ?_⟩
  rw [p3, c2, List.take_of_length_le (Nat.le_of_lt hBlen)]

/-- Witness of C6: the session of the specification, `cd /tmp`, `cd /`, `cd -`,
from a fresh session in `/root`; before them `cd -` reports that `OLDPWD` is not
set, after them the working directory is `/tmp`. -/
theorem cd_previous_directory_witness :
    (∃ w', execute_cd sample_sys [CD_COMMAND, CD_PREV_CHAR] 2 sample_world
        = Outcome.returned (-1) w' ∧
      w'.stderr = ["cd: OLDPWD not set\n"] ∧ w'.cwd = ['/', 'r', 'o', 'o', 't'] ∧
      w'.prev_dir = []) ∧
    ∃ w1 w2 w3,
      execute_cd sample_sys [CD_COMMAND, ['/', 't', 'm', 'p']] 2 sample_world
        = Outcome.returned 0 w1 ∧
      execute_cd sample_sys [CD_COMMAND, ['/']] 2 w1 = Outcome.returned 0 w2 ∧
      execute_cd sample_sys [CD_COMMAND, CD_PREV_CHAR] 2 w2 = Outcome.returned 0 w3 ∧
      w3.cwd = ['/', 't', 'm', 'p'] ∧ w3.prev_dir = ['/'] :=
  have h := cd_previous_directory sample_sys sample_world ['/', 't', 'm', 'p'] ['/']
    (by decide) (by decide) ⟨by decide, by decide, fun _ => ⟨rfl, rfl⟩⟩
    ⟨by decide, by decide, fun _ => ⟨rfl, rfl⟩⟩ (by decide) (by decide)
  ⟨h.1 rfl, h.2.elim fun w1 h1 => h1.elim fun w2 h2 => h2.elim fun w3 h3 =>
    ⟨w1, w2, w3, h3.1, h3.2.2.2.1, h3.2.2.2.2.2.2.1, h3.2.2.2.2.2.2.2.1, h3.2.2.2.2.2.2.2.2⟩⟩

/-- C7 (argument resolution of `cd`), evaluated on the code.  The tests of
lines 408 and 414 compare one character, so an argument that only begins with
`~` or `-` is resolved like the marker.  In the sample session in `/tmp`, left
from `/`, neither `~x` nor `-x` is an existing directory; `cd ~x` changes into
`HOME` (`/root`) and `cd -x` into `prev_dir` (`/`), and neither call reports
`No such file or directory`. -/
theorem execute_cd_marker_by_first_character :
    sample_sys.stat_is_dir tmp_world_from_root.cwd ['~', 'x'] = false ∧
    sample_sys.stat_is_dir tmp_world_from_root.cwd ['-', 'x'] = false ∧
    (∃ w, execute_cd sample_sys [CD_COMMAND, ['~', 'x']] 2 tmp_world_from_root
        = Outcome.returned 0 w ∧
      w.cwd = ['/', 'r', 'o', 'o', 't'] ∧ w.stderr = []) ∧
    (∃ w, execute_cd sample_sys [CD_COMMAND, ['-', 'x']] 2 tmp_world_from_root
        = Outcome.returned 0 w ∧
      w.cwd = ['/'] ∧ w.stderr = []) :=
  ⟨by decide, by decide, ⟨_, rfl, by decide, by decide⟩, ⟨_, rfl, by decide, by decide⟩⟩

/-! ## The dispatcher: `handle_command` -/

/-- C3 (entries have a non-empty text), evaluated on the code.  The command
made of the single word `&` is dispatched as a background command: the word is
erased, `add_command` receives no word and the entry appended to the ledger has
an empty `command_line` (the store that removes the trailing white-space then
has the index `command_len - 1` with `command_len = 0`). -/
theorem handle_command_lone_ampersand :
    ∃ w, handle_command sample_sys 4242 [['&']] 1 sample_world = Outcome.returned 0 w ∧
      w.commands_record.amount = sample_world.commands_record.amount + 1 ∧
      w.commands_record.commands sample_world.commands_record.amount
        = { pid := 4242, command_line := [] } :=
  ⟨_, rfl, by decide, by decide⟩

/-- C4 (dispatch decision), evaluated on the code.  The test of line 491
compares one character, so the last word `&x` of `ls &x`, which is not the
token `&`, selects the background launch and is erased: the parent ignores
`SIGCHLD`, waits for no child and records `ls`; the child calls `execve` with
the argument vector `/bin/ls` alone. -/
theorem handle_command_ampersand_by_first_character :
    (∃ w, handle_command sample_sys 4242 [['l', 's'], ['&', 'x']] 2 sample_world
        = Outcome.returned 0 w ∧
      w.sigchld_ignored = true ∧ w.waited = [] ∧
      w.commands_record.commands 0 = { pid := 4242, command_line := ['l', 's'] }) ∧
    (∃ w, handle_command sample_sys 0 [['l', 's'], ['&', 'x']] 2 sample_world
        = Outcome.execve ['/', 'b', 'i', 'n', '/', 'l', 's']
          [['/', 'b', 'i', 'n', '/', 'l', 's']] w) :=
  ⟨⟨_, rfl, by decide, by decide, by decide⟩, ⟨_, rfl⟩⟩

/-- The dispatch of a command that is none of the builtins, as the code makes
it: the launch is a background launch, with the last word erased, exactly when
the last word begins with `&`. -/
theorem handle_command_external (sys : Sys) (fork_ret : Int) (word0 : CString)
    (rest : List CString) (w : World)
    (hcd : word0 ≠ CD_COMMAND) (hexit : word0 ≠ EXIT_COMMAND) (hjobs : word0 ≠ JOBS_COMMAND)
    (hhistory : word0 ≠ HISTORY_COMMAND) :
    handle_command sys fork_ret (word0 :: rest) (word0 :: rest).length w
      = if ((word0 :: rest).getLast (List.cons_ne_nil _ _)).head? = some '&' then
          check_run (run_process sys ChildFunc.child_command_executor (word0 :: rest).dropLast
            ParentFunc.background_parent fork_ret w) "Failed to execute the current command."
        else
          check_run (run_process sys ChildFunc.child_command_executor (word0 :: rest)
            ParentFunc.wait_parent fork_ret w) "Failed to execute the current command." := by
  have h1 : ¬ (strncmp_eq word0 CD_COMMAND MAX_WORD_LEN = true) :=
    fun h => hcd ((strncmp_eq_whole _ _ _ (by decide)).mp h)
  have h2 : ¬ (strncmp_eq word0 EXIT_COMMAND MAX_WORD_LEN = true) :=
    fun h => hexit ((strncmp_eq_whole _ _ _ (by decide)).mp h)
  have h3 : ¬ (strncmp_eq word0 JOBS_COMMAND MAX_WORD_LEN = true) :=
    fun h => hjobs ((strncmp_eq_whole _ _ _ (by decide)).mp h)
  have h4 : ¬ (strncmp_eq word0 HISTORY_COMMAND MAX_WORD_LEN = true) :=
    fun h => hhistory ((strncmp_eq_whole _ _ _ (by decide)).mp h)
  have hlast : (word0 :: rest)[(word0 :: rest).length - 1]?
      = some ((word0 :: rest).getLast (List.cons_ne_nil _ _)) := by
    rw [List.getLast_eq_getElem, List.getElem?_eq_getElem]
  have hpos : ¬ ((word0 :: rest).length = 0) := by simp
  simp only [handle_command, List.getElem?_cons_zero, if_neg h1, if_neg h2, if_neg h3, if_neg h4,
    if_neg hpos, hlast, AMPERSAND_CHAR, strncmp_eq_one, List.dropLast_eq_take]

/-! ## The child continuation and the listings -/

/-- After the store `buf[dst] = c`, the first `dst + 1` characters are the
first `dst` ones followed by `c`. -/
theorem take_succ_set (buf : CString) (dst : Nat) (c : Char) (h : dst < buf.length) :
    (buf.set dst c).take (dst + 1) = buf.take dst ++ [c] := by
  rw [List.set_eq_take_append_cons_drop, if_pos h]
  have hlen : (buf.take dst).length = dst := List.length_take_of_le (Nat.le_of_lt h)
  rw [List.take_append_eq_append_take, hlen]
  simp [List.take_of_length_le (Nat.le_of_eq hlen)]

/-- The store `buf[dst] = c` leaves the first `dst` characters as they are. -/
theorem take_set_self (buf : CString) (dst : Nat) (c : Char) :
    (buf.set dst c).take dst = buf.take dst := by
  by_cases h : dst < buf.length
  · rw [List.set_eq_take_append_cons_drop, if_pos h]
    have hlen : (buf.take dst).length = dst := List.length_take_of_le (Nat.le_of_lt h)
    rw [List.take_append_eq_append_take, hlen]
    simp
  · rw [List.set_eq_take_append_cons_drop, if_neg h]

/-- Invariant of the loop of `remove_char`: what is kept so far, then the rest
of the string without the character to remove. -/
theorem remove_char_loop_spec (garbage : Char) :
    ∀ (fuel : Nat) (buf : CString) (src dst : Nat), dst ≤ src → src ≤ buf.length →
      buf.length - src < fuel →
      remove_char_loop garbage fuel buf src dst
        = buf.take dst ++ (buf.drop src).filter (fun c => decide (c ≠ garbage)) := by
  intro fuel
  induction fuel with
  | zero => intro buf src dst _ _ h; omega
  | succ n ih =>
    intro buf src dst hds hsl hfuel
    by_cases hend : src = buf.length
    · have hnone : buf[src]? = none := List.getElem?_eq_none (by omega)
      simp only [remove_char_loop, hnone, store_nul]
      rw [List.drop_of_length_le (by omega)]
      simp
    · have hlt : src < buf.length := by omega
      have hsome : buf[src]? = some buf[src] := List.getElem?_eq_getElem hlt
      have hdrop : buf.drop src = buf[src] :: buf.drop (src + 1) := List.drop_eq_getElem_cons hlt
      have hlen : (buf.set dst buf[src]).length = buf.length := List.length_set _ _ _
      have hdrop' : (buf.set dst buf[src]).drop (src + 1) = buf.drop (src + 1) :=
        List.drop_set_of_lt _ _ (by omega)
      simp only [remove_char_loop, hsome]
      by_cases hc : buf[src] ≠ garbage
      · rw [if_pos hc, ih _ _ _ (by omega) (by omega) (by omega), hdrop', hdrop,
          take_succ_set buf dst _ (by omega), List.filter_cons_of_pos (by simpa using hc),
          List.append_assoc]
        rfl
      · rw [if_neg hc, ih _ _ _ (by omega) (by omega) (by omega), hdrop', hdrop,
          take_set_self, List.filter_cons_of_neg (by simpa using hc)]

/-- The function `remove_char` removes every occurrence of the character and
keeps the others in order. -/
theorem remove_char_eq_filter (str : CString) (garbage : Char) :
    remove_char str garbage = str.filter (fun c => decide (c ≠ garbage)) := by
  unfold remove_char
  rw [remove_char_loop_spec garbage _ str 0 0 (Nat.le_refl _) (Nat.zero_le _) (by omega)]
  simp

/-- A loop over slots that prints a line for the entries satisfying a test
prints the lines of the filtered entries. -/
theorem foldl_printf_filter (P : Command → Prop) [DecidablePred P] (g : Command → String)
    (l : List Nat) :
    ∀ acc : World,
      l.foldl (fun acc i =>
          if P (acc.commands_record.commands i) then
            printf (g (acc.commands_record.commands i)) acc
          else acc) acc
        = { acc with stdout := acc.stdout
            ++ ((l.map acc.commands_record.commands).filter (fun c => decide (P c))).map g } := by
  induction l with
  | nil => intro acc; simp
  | cons i rest ih =>
    intro acc
    rw [List.foldl_cons, ih]
    by_cases h : P (acc.commands_record.commands i)
    · simp [h, printf]
    · simp [h]

/-- A loop over slots that prints a line per entry prints the lines of the
entries. -/
theorem foldl_printf_map (g : Command → String) (l : List Nat) :
    ∀ acc : World,
      l.foldl (fun acc i => printf (g (acc.commands_record.commands i)) acc) acc
        = { acc with stdout := acc.stdout ++ (l.map acc.commands_record.commands).map g } := by
  induction l with
  | nil => intro acc; simp
  | cons i rest ih =>
    intro acc
    rw [List.foldl_cons, ih]
    simp [printf]

/-- C8 (output of `jobs` and `history`).  For every ledger and every outcome of
the liveness probe, `execute_jobs` ends the process with status `0` after
printing exactly the lines of `jobs_lines`, and `execute_history` after printing
exactly the lines of `history_lines`; the state they leave differs from the
one they start from in `stdout` only, so no ledger entry is added, removed or
changed. -/
theorem listings_output (sys : Sys) (w : World) :
    execute_jobs sys w
      = Outcome.exited 0 { w with stdout := w.stdout ++ jobs_lines sys w.commands_record } ∧
    execute_history sys w
      = Outcome.exited 0 { w with stdout := w.stdout ++ history_lines sys w.commands_record } := by
  constructor
  · unfold execute_jobs
    rw [foldl_printf_filter (fun c => sys.getpgid c.pid ≥ 0)
      (fun c => fmt_d c.pid ++ " " ++ fmt_s c.command_line ++ "\n")]
    rfl
  · unfold execute_history
    rw [foldl_printf_map (fun c => fmt_d c.pid ++ " " ++ fmt_s c.command_line ++ " "
      ++ (if sys.getpgid c.pid ≥ 0 then "RUNNING" else "DONE") ++ "\n")]
    simp [history_lines, entries, printf]

/-- C9 (`echo` quote stripping).  `remove_char` with the double quote returns
the word without its double quotes, the other characters in their order; and
for a command whose first word is `echo`, within the `MAX_WORDS_NUM` words of
the array, `child_command_executor` calls `execve` on `/bin/echo` with the
argument words equal to the input words without their double quotes. -/
theorem echo_strips_quotes (sys : Sys) (args : List CString) (w : World)
    (hlen : args.length < MAX_WORDS_NUM) :
    (∀ word : CString,
      remove_char word QUOTE_CHAR = word.filter (fun c => decide (c ≠ QUOTE_CHAR))) ∧
    child_command_executor sys (ECHO_COMMAND :: args) w
      = Outcome.execve (COMMANDS_DIR ++ ECHO_COMMAND)
          ((COMMANDS_DIR ++ ECHO_COMMAND)
            :: args.map (fun word => word.filter (fun c => decide (c ≠ QUOTE_CHAR))))
          (printf (fmt_d sys.getpid ++ "\n") w) := by
  refine ⟨fun word => remove_char_eq_filter word QUOTE_CHAR, ?_⟩
  have htake : (ECHO_COMMAND :: args).take MAX_WORDS_NUM = ECHO_COMMAND :: args :=
    List.take_of_length_le (by simp only [List.length_cons]; omega)
  have hdrop : (ECHO_COMMAND :: args).drop MAX_WORDS_NUM = [] :=
    List.drop_of_length_le (by simp only [List.length_cons]; omega)
  have hecho : ECHO_COMMAND.filter (fun c => decide (c ≠ QUOTE_CHAR)) = ECHO_COMMAND := by
    decide
  have hcmp : strncmp_eq ECHO_COMMAND ECHO_COMMAND MAX_WORD_LEN = true := by decide
  have hpath : strncpy (strncat (strncpy COMMANDS_DIR (MAX_WORD_LEN + 1)) ECHO_COMMAND
      (MAX_WORD_LEN + 1 - 1)) MAX_WORD_LEN = COMMANDS_DIR ++ ECHO_COMMAND := by decide
  simp only [child_command_executor, hcmp, if_true, htake, hdrop, List.append_nil, List.map_cons,
    remove_char_eq_filter, hecho, List.headD_cons, List.tail_cons, hpath]


/-- Witness of C9: the words `echo` and `"hello"` give the argument word `hello`. -/
theorem echo_strips_quotes_witness :
    child_command_executor sample_sys
        [ECHO_COMMAND, [QUOTE_CHAR, 'h', 'e', 'l', 'l', 'o', QUOTE_CHAR]] sample_world
      = Outcome.execve ['/', 'b', 'i', 'n', '/', 'e', 'c', 'h', 'o']
          [['/', 'b', 'i', 'n', '/', 'e', 'c', 'h', 'o'], ['h', 'e', 'l', 'l', 'o']]
          (printf (fmt_d 500 ++ "\n") sample_world) :=
  (echo_strips_quotes sample_sys [[QUOTE_CHAR, 'h', 'e', 'l', 'l', 'o', QUOTE_CHAR]]
    sample_world (by decide)).2

/-! ## The interactive loop: `shell_loop` -/

/-- With allocations that succeed, `split_line` copies tokens that fit the
words array, returns `0` with their number and logs nothing. -/
theorem split_line_loop_ok (sys : Sys) (n : Nat) (hmalloc : ∀ k, sys.malloc_ok k = true) :
    ∀ (tokens words : List CString), words.length + tokens.length ≤ MAX_WORDS_NUM →
      (∀ t ∈ tokens, t.length < MAX_WORD_LEN) →
      split_line_loop sys n tokens words
        = some (0, words ++ tokens, (words ++ tokens).length, []) := by
  intro tokens
  induction tokens with
  | nil => intro words _ _; simp [split_line_loop]
  | cons t rest ih =>
    intro words hlen ht
    have htl : t.length < MAX_WORD_LEN := ht t (List.mem_cons_self _ _)
    have h1 : strnlen t MAX_WORD_LEN ≤ MAX_WORD_LEN := by simp [strnlen]
    have h2 : ¬ (MAX_WORDS_NUM ≤ words.length) := by
      simp only [List.length_cons] at hlen; omega
    have h3 : ¬ (MAX_WORD_LEN ≤ t.length) := by omega
    have h4 : strncpy t MAX_WORD_LEN = t := List.take_of_length_le (Nat.le_of_lt htl)
    rw [split_line_loop, if_neg (not_not.mpr h1), if_neg h2, if_neg (not_not.mpr (hmalloc _)),
      if_neg h3, h4, ih _ (by
          simp only [List.length_append, List.length_cons, List.length_nil] at hlen ⊢; omega)
        (fun x hx => ht x (List.mem_cons_of_mem _ hx))]
    simp

/-- A call of `add_command` leaves `prev_dir` as it is. -/
theorem add_command_prev_dir (pid : Int) (words : List CString) (v : World) :
    (add_command pid words v).2.prev_dir = v.prev_dir := by
  unfold add_command; split <;> rfl

/-- The return code of `add_command` is `0` or `-1`. -/
theorem add_command_code (pid : Int) (words : List CString) (v : World) :
    (add_command pid words v).1 = 0 ∨ (add_command pid words v).1 = -1 := by
  unfold add_command; split
  · exact Or.inr rfl
  · exact Or.inl rfl

/-- With at least one word, `num_of_words` equal to their number and a
terminated `prev_dir`, `execute_cd` returns. -/
theorem execute_cd_returns (sys : Sys) (words : List CString) (w : World)
    (hlen : 1 ≤ words.length) (hprev : w.prev_dir.length < MAX_WORD_LEN) :
    ∃ code w', execute_cd sys words words.length w = Outcome.returned code w' := by
  rcases add_command_code sys.getpid words (printf (fmt_d sys.getpid ++ "\n") w) with h | h
  · obtain ⟨code, w', hw, _⟩ := execute_cd_shape sys words w _ rfl h hlen
      (by rw [add_command_prev_dir]; exact hprev)
    exact ⟨code, w', hw⟩
  · refine ⟨-1, LOG_ERROR "Failed to add a command."
      (add_command sys.getpid words (printf (fmt_d sys.getpid ++ "\n") w)).2, ?_⟩
    simp [execute_cd, h]

/-- The end of `execute_cd` returns. -/
theorem cd_into_returned (sys : Sys) (target : Option CString) (temp : CString) (v : World) :
    ∃ code v', cd_into sys target temp v = Outcome.returned code v' := by
  obtain ⟨code, v', hv, _⟩ := cd_into_returns sys target temp v
  exact ⟨code, v', hv⟩

/-- Whatever the words and `num_of_words`, `execute_cd` returns unless it reads
a pointer that designates no string. -/
theorem execute_cd_returned_or_undefined (sys : Sys) (words : List CString) (n : Nat)
    (w : World) :
    execute_cd sys words n w = Outcome.undefined ∨
      ∃ code w', execute_cd sys words n w = Outcome.returned code w' := by
  simp only [execute_cd]
  generalize add_command sys.getpid words (printf (fmt_d sys.getpid ++ "\n") w) = res
  by_cases h0 : res.1 = 0
  · rw [if_neg (not_not.mpr h0)]
    by_cases h2 : n ≤ 2
    · rw [if_neg (not_not.mpr h2)]
      by_cases hg : sys.getcwd_ok res.2.cwd = true
      · rw [if_neg (not_not.mpr hg)]
        by_cases h1 : n = 1
        · rw [if_pos h1]
          exact Or.inr (cd_into_returned _ _ _ _)
        · rw [if_neg h1]
          cases words[1]? with
          | none => exact Or.inl rfl
          | some arg =>
            simp only []
            by_cases hh : strncmp_eq arg CD_HOME_CHAR 1 = true
            · rw [if_pos hh]
              exact Or.inr (cd_into_returned _ _ _ _)
            · rw [if_neg hh]
              by_cases hp : strncmp_eq arg CD_PREV_CHAR 1 = true
              · rw [if_pos hp]
                by_cases hl : MAX_WORD_LEN ≤ res.2.prev_dir.length
                · rw [if_pos hl]
                  exact Or.inl rfl
                · rw [if_neg hl]
                  by_cases hs : strnlen res.2.prev_dir MAX_WORD_LEN > 0
                  · rw [if_neg (not_not.mpr hs)]
                    exact Or.inr (cd_into_returned _ _ _ _)
                  · rw [if_pos hs]
                    exact Or.inr ⟨_, _, rfl⟩
              · rw [if_neg hp]
                by_cases hd : sys.stat_is_dir res.2.cwd arg = true
                · rw [if_pos hd]
                  exact Or.inr (cd_into_returned _ _ _ _)
                · rw [if_neg hd]
                  exact Or.inr ⟨_, _, rfl⟩
      · rw [if_pos hg]
        exact Or.inr ⟨_, _, rfl⟩
    · rw [if_pos h2]
      exact Or.inr ⟨_, _, rfl⟩
  · rw [if_pos h0]
    exact Or.inr ⟨_, _, rfl⟩

/-- Where `fork` does not return `0`, `run_process` returns. -/
theorem run_process_parent (sys : Sys) (child_func : ChildFunc) (words : List CString)
    (parent_func : ParentFunc) (fork_ret : Int) (w : World) (hparent : fork_ret ≠ 0) :
    ∃ code w', run_process sys child_func words parent_func fork_ret w
      = Outcome.returned code w' := by
  simp only [run_process]
  by_cases h0 : fork_ret ≥ 0
  · rw [if_neg (not_not.mpr h0), if_neg hparent]
    split_ifs
    · exact ⟨_, _, rfl⟩
    · exact ⟨_, _, rfl⟩
  · rw [if_pos h0]
    exact ⟨_, _, rfl⟩

/-- The check around `run_process` returns when `run_process` does. -/
theorem check_run_returned (o : Outcome) (msg : String)
    (h : ∃ code w', o = Outcome.returned code w') :
    ∃ code w', check_run o msg = Outcome.returned code w' := by
  obtain ⟨code, w', rfl⟩ := h
  simp only [check_run]
  split_ifs
  · exact ⟨_, _, rfl⟩
  · exact ⟨_, _, rfl⟩

/-- Whatever `num_of_words`, `handle_command` on an array whose first word is
`exit` prints the pid and ends the process with the status `0`. -/
theorem handle_command_exit (sys : Sys) (fork_ret : Int) (rest : List CString) (n : Nat)
    (w : World) :
    handle_command sys fork_ret (EXIT_COMMAND :: rest) n w
      = Outcome.exited 0 (printf (fmt_d sys.getpid ++ "\n") w) := by
  have h1 : strncmp_eq EXIT_COMMAND CD_COMMAND MAX_WORD_LEN = false := by decide
  have h2 : strncmp_eq EXIT_COMMAND EXIT_COMMAND MAX_WORD_LEN = true := by decide
  simp [handle_command, h1, h2]

/-- In the shell process, whatever the words array and `num_of_words`,
`handle_command` on a first word other than `exit` returns, unless it reads a
pointer that designates no string. -/
theorem handle_command_returned_or_undefined (sys : Sys) (fork_ret : Int)
    (words : List CString) (n : Nat) (w : World) (hparent : fork_ret ≠ 0)
    (hne : words.head? ≠ some EXIT_COMMAND) :
    handle_command sys fork_ret words n w = Outcome.undefined ∨
      ∃ code w', handle_command sys fork_ret words n w = Outcome.returned code w' := by
  cases words with
  | nil => exact Or.inl rfl
  | cons word0 rest =>
    have hexit : ¬ (strncmp_eq word0 EXIT_COMMAND MAX_WORD_LEN = true) := by
      intro h
      exact hne (by rw [(strncmp_eq_whole _ _ _ (by decide)).mp h]; rfl)
    simp only [handle_command, List.getElem?_cons_zero]
    split_ifs
    · rcases execute_cd_returned_or_undefined sys (word0 :: rest) n w with h | ⟨code, w', h⟩
      · rw [h]; exact Or.inl rfl
      · rw [h]; exact Or.inr ⟨_, _, rfl⟩
    · exact Or.inr (check_run_returned _ _ (run_process_parent _ _ _ _ _ _ hparent))
    · exact Or.inr (check_run_returned _ _ (run_process_parent _ _ _ _ _ _ hparent))
    · exact Or.inl rfl
    · split
      · exact Or.inl rfl
      · split_ifs
        · exact Or.inr (check_run_returned _ _ (run_process_parent _ _ _ _ _ _ hparent))
        · exact Or.inr (check_run_returned _ _ (run_process_parent _ _ _ _ _ _ hparent))

/-- In the shell process, with a terminated `prev_dir` and `num_of_words` equal
to the number of words, `handle_command` on a first word other than `exit`
returns. -/
theorem handle_command_parent (sys : Sys) (fork_ret : Int) (word0 : CString)
    (rest : List CString) (w : World) (hparent : fork_ret ≠ 0)
    (hprev : w.prev_dir.length < MAX_WORD_LEN) (hne : word0 ≠ EXIT_COMMAND) :
    ∃ code w', handle_command sys fork_ret (word0 :: rest) (word0 :: rest).length w
      = Outcome.returned code w' := by
  have hexit : strncmp_eq word0 EXIT_COMMAND MAX_WORD_LEN = true ↔ word0 = EXIT_COMMAND :=
    strncmp_eq_whole _ _ _ (by decide)
  have hne' : ¬ (strncmp_eq word0 EXIT_COMMAND MAX_WORD_LEN = true) := fun h => hne (hexit.mp h)
  have hlast : ∃ last, (word0 :: rest)[(word0 :: rest).length - 1]? = some last :=
    ⟨_, List.getElem?_eq_getElem (by simp)⟩
  obtain ⟨last, hlast⟩ := hlast
  simp only [handle_command, List.getElem?_cons_zero]
  split_ifs with h1 h2 h3 h4
  · obtain ⟨code, w', hw⟩ := execute_cd_returns sys (word0 :: rest) w (by simp) hprev
    rw [hw]
    exact ⟨_, _, rfl⟩
  · exact check_run_returned _ _ (run_process_parent _ _ _ _ _ _ hparent)
  · exact check_run_returned _ _ (run_process_parent _ _ _ _ _ _ hparent)
  · simp at h4
  · rw [hlast]
    simp only
    split_ifs
    · exact check_run_returned _ _ (run_process_parent _ _ _ _ _ _ hparent)
    · exact check_run_returned _ _ (run_process_parent _ _ _ _ _ _ hparent)

/-- One pass in the shell process, whatever the input and the allocations: it
ends the process when the first word handed to `handle_command` is `exit`;
otherwise it reaches the end of the loop body, unless it reads a pointer that
designates no string. -/
theorem shell_loop_body_cases (sys : Sys) (fork_ret : Int) (input : Option (List Char))
    (w : World) (hparent : fork_ret ≠ 0) :
    (exit_command_read sys input →
      ∃ w', shell_loop_body sys fork_ret input w = Outcome.exited 0 w') ∧
    (¬ exit_command_read sys input →
      shell_loop_body sys fork_ret input w = Outcome.undefined ∨
        ∃ w', shell_loop_body sys fork_ret input w = Outcome.returned 0 w') := by
  simp only [exit_command_read, words_read, shell_loop_body]
  rcases read_line input with _ | ⟨code, line_buff, line_size⟩
  · exact ⟨fun h => by simp at h, fun _ => Or.inl rfl⟩
  · simp only []
    by_cases hs : line_size > 0
    · rw [if_pos hs, if_pos hs]
      rcases split_line sys line_buff 0 with _ | ⟨code2, words, n, msgs⟩
      · exact ⟨fun h => by simp at h, fun _ => Or.inl rfl⟩
      · simp only [Option.map_some', Option.some_bind]
        constructor
        · intro hex
          cases words with
          | nil => simp at hex
          | cons word0 rest =>
            have h0 : word0 = EXIT_COMMAND := by simpa using hex
            subst h0
            rw [handle_command_exit]
            exact ⟨_, rfl⟩
        · intro hne
          rcases handle_command_returned_or_undefined sys fork_ret words n _ hparent hne
            with h | ⟨c, w', h⟩
          · rw [h]; exact Or.inl rfl
          · rw [h]; exact Or.inr ⟨_, rfl⟩
    · rw [if_neg hs, if_neg hs]
      exact ⟨fun h => by simp at h, fun _ => Or.inr ⟨_, rfl⟩⟩

/-- The words handed to `handle_command` for a line of two bytes or more within
the buffers, with allocations that succeed: the words of the line. -/
theorem split_line_accepted (sys : Sys) (raw : List Char)
    (hmalloc : ∀ k, sys.malloc_ok k = true) (hinput : accepted_input (some raw))
    (hlen : 1 < raw.length) :
    read_line (some raw) = some (0, store_nul raw (raw.length - 1), raw.length) ∧
    split_line sys (store_nul raw (raw.length - 1)) 0
      = some (0, line_words raw, (line_words raw).length, []) := by
  obtain ⟨hfit, hwords0, hcount, hwords⟩ := hinput
  have hne : line_words raw ≠ [] := by
    rcases hwords0 with h | h
    · omega
    · exact h
  have hread : read_line (some raw)
      = some (0, store_nul raw (raw.length - 1), raw.length) := by
    simp only [read_line]
    rw [if_neg (by omega), if_neg (by omega)]
  have hline : ¬ (strnlen (c_str (store_nul raw (raw.length - 1))) MAX_LINE_BUFF_SIZE = 0) := by
    intro h0
    have hnil : c_str (store_nul raw (raw.length - 1)) = [] := by
      simp only [strnlen, MAX_LINE_BUFF_SIZE, MAX_WORDS_NUM, MAX_WORD_LEN] at h0
      exact List.length_eq_zero.mp (by omega)
    apply hne
    simp only [line_words, hnil]
    decide
  refine ⟨hread, ?_⟩
  simp only [split_line]
  rw [if_neg hline]
  have := split_line_loop_ok sys 0 hmalloc (line_words raw) [] (by simpa using hcount) hwords
  simpa [line_words] using this

/-- One pass on an empty line: nothing is dispatched. -/
theorem shell_loop_body_short (sys : Sys) (fork_ret : Int) (raw : List Char) (w : World)
    (hfit : raw.length + 1 ≤ MAX_LINE_BUFF_SIZE) (hlen : raw.length ≤ 1) :
    shell_loop_body sys fork_ret (some raw) w = Outcome.returned 0 (printf PROMPT w) ∧
    words_read sys (some raw) = none := by
  by_cases h1 : raw.length = 1
  · simp only [shell_loop_body, words_read, read_line]
    rw [if_neg (by omega), if_pos h1]
    simp
  · have h0 : raw.length = 0 := by omega
    simp only [shell_loop_body, words_read, read_line]
    rw [if_neg (by omega), if_neg h1]
    simp [h0]

/-- An input within the buffers of the program, with allocations that succeed
and a terminated `prev_dir`, keeps one pass of the shell process within
defined behaviour; the command is `exit` exactly when the first word of the
line is. -/
theorem shell_loop_body_defined (sys : Sys) (fork_ret : Int) (input : Option (List Char))
    (w : World) (hparent : fork_ret ≠ 0) (hinput : accepted_input input)
    (hmalloc : ∀ k, sys.malloc_ok k = true) (hprev : w.prev_dir.length < MAX_WORD_LEN) :
    shell_loop_body sys fork_ret input w ≠ Outcome.undefined ∧
    (exit_command_read sys input ↔
      ∃ raw, input = some raw ∧ 1 < raw.length ∧ (line_words raw).head? = some EXIT_COMMAND) := by
  cases input with
  | none =>
    refine ⟨(fun h => by cases h),
      ⟨fun h => absurd h (by simp [exit_command_read, words_read, read_line]), fun h => ?_⟩⟩
    obtain ⟨raw, hraw, _⟩ := h
    cases hraw
  | some raw =>
    by_cases hlen : 1 < raw.length
    · obtain ⟨hread, hsplit⟩ := split_line_accepted sys raw hmalloc hinput hlen
      have hwr : words_read sys (some raw) = some (line_words raw) := by
        simp only [words_read, hread, hsplit]
        simp [show raw.length > 0 by omega]
      have hex : exit_command_read sys (some raw)
          ↔ (line_words raw).head? = some EXIT_COMMAND := by
        simp only [exit_command_read, hwr, Option.some_bind]
      constructor
      · obtain ⟨_, hwords0, _, _⟩ := hinput
        have hne : line_words raw ≠ [] := by
          rcases hwords0 with h | h
          · omega
          · exact h
        obtain ⟨word0, rest, hw⟩ := List.exists_cons_of_ne_nil hne
        have hbody : shell_loop_body sys fork_ret (some raw) w
            = match handle_command sys fork_ret (line_words raw) (line_words raw).length
                (printf PROMPT w) with
              | Outcome.returned code3 w3 =>
                Outcome.returned 0
                  (if code3 = 0 then w3
                    else LOG_ERROR "Failed to handle the current command." w3)
              | other => other := by
          simp only [shell_loop_body, hread, hsplit]
          simp [show raw.length > 0 by omega, log_all]
        by_cases h0 : word0 = EXIT_COMMAND
        · rw [hbody, hw, h0, handle_command_exit]
          intro h; cases h
        · obtain ⟨code, w', hres⟩ :=
            handle_command_parent sys fork_ret word0 rest (printf PROMPT w) hparent hprev h0
          rw [hbody, hw, hres]
          intro h; cases h
      · rw [hex]
        constructor
        · intro h; exact ⟨raw, rfl, hlen, h⟩
        · intro h
          obtain ⟨raw', hraw, _, hhead⟩ := h
          cases hraw
          exact hhead
    · obtain ⟨hshort, hwr⟩ := shell_loop_body_short sys fork_ret raw w hinput.1 (by omega)
      refine ⟨(by rw [hshort]; intro h; cases h), ⟨fun h => ?_, fun h => ?_⟩⟩
      · simp [exit_command_read, hwr] at h
      · obtain ⟨raw', hraw, hlen', _⟩ := h
        cases hraw
        omega

/-- The passes of the witness of C10, evaluated: the line `jobs x` in the
system that cannot allocate a second word logs the failure of the allocation
and of `split_line`, and the command `jobs` is recorded all the same; a NUL
byte ends the line, so `exit`, NUL, `foo` is the command `exit`. -/
theorem shell_loop_body_samples :
    (∃ w', shell_loop_body low_memory_sys 4242
        (some ['j', 'o', 'b', 's', ' ', 'x', NEWLINE]) sample_world = Outcome.returned 0 w' ∧
      w'.stderr = ["Failed to allocate memory for a word.\n",
        "Failed to split the line to words.\n"] ∧
      w'.commands_record.commands 0 = { pid := 4242, command_line := ['j', 'o', 'b', 's'] }) ∧
    (∃ w', shell_loop_body sample_sys 4242
        (some ['e', 'x', 'i', 't', NUL, 'f', 'o', 'o', NEWLINE]) sample_world
      = Outcome.exited 0 w') ∧
    shell_loop_body sample_sys 4242 (some [NUL, 'l', 's', NEWLINE]) sample_world
      = Outcome.undefined :=
  ⟨⟨_, rfl, by decide, by decide⟩, ⟨_, rfl⟩, rfl⟩

/-- At the end of the input the loop never stops: after any number of passes
that all meet the end of the input, `shell_loop` is still running. -/
theorem shell_loop_end_of_input_forever (sys : Sys) (fork_ret : Int) (n : Nat) :
    ∀ w : World, ∃ w', shell_loop sys (List.replicate n (none, fork_ret)) w
      = Outcome.returned 0 w' := by
  induction n with
  | zero => intro w; exact ⟨w, rfl⟩
  | succ k ih =>
    intro w
    obtain ⟨w', hw'⟩ := ih (LOG_ERROR "Failed to get a line from the user" (printf PROMPT w))
    exact ⟨w', by rw [List.replicate_succ]; simpa [shell_loop, shell_loop_body, read_line] using hw'⟩

end Shell
